import Mathlib

/-!
# Verification of the motiondetect core data structures

Shallow embedding of the two core data structures of the motiondetect
repository (file `buffer.go`): `MatBuffer`, a fixed-capacity ring buffer
of timestamped frames, and `FPSCounter`, a sliding-window frame-rate
counter driven by a producer and a background ticker.

Conventions of the embedding:
* `time.Time` and `time.Duration` values are modelled as integer
  nanosecond counts (`ℤ`); `float64` arithmetic is idealised as exact
  rational arithmetic (`ℚ`).  In `ℚ`, division by zero yields `0`,
  whereas Go float division by zero yields `±Inf`/`NaN`; theorems about
  division guards therefore establish that a zero divisor is reached
  rather than asserting a particular float value.
* A `gocv.Mat` is modelled as a `Frame` carrying its dimensions
  (`Cols`/`Rows`) and an abstract pixel-content identifier; `CopyTo`
  into a slot is modelled as replacing the slot's content.
* External effects (the gocv video writer, `Mat.Close`) are modelled by
  explicit parameters giving their outcome and by traces of the calls
  performed on them.
-/

namespace MotionDetect

/-- Model of a `gocv.Mat`: its dimensions (`Cols()`/`Rows()`) plus an
abstract identifier standing for the pixel contents. -/
structure Frame where
  cols : ℕ
  rows : ℕ
  data : ℕ
deriving DecidableEq, Repr

/-- Model of `gocv.NewMat()`: a fresh empty matrix (0×0). -/
def newMat : Frame := ⟨0, 0, 0⟩

/-- Model of `MatBuffer` (buffer.go): a matrix ring buffer storing the last
frames added to it.  `imgs` and `times` are the slot arrays (the fixed
capacity is `len(b.imgs)`), and `writes` counts every `Add` ever made. -/
structure MatBuffer where
  imgs : List Frame
  times : List ℤ
  writes : ℕ
deriving DecidableEq, Repr

/-- Go's `int(x)` conversion of a float: truncation toward zero. -/
def goTrunc (q : ℚ) : ℤ := if 0 ≤ q then ⌊q⌋ else ⌈q⌉

/-- A buffer with `c` pre-allocated slots, no writes yet (the result of the
allocation loop in `NewMatBuffer`). -/
def mkBuffer (c : ℕ) : MatBuffer :=
  { imgs := List.replicate c newMat
    times := List.replicate c 0
    writes := 0 }

/-- Model of `NewMatBuffer(duration, fps)`:
`frames := int(fps * duration.Seconds())` — Go `int()` truncates toward
zero (`duration.Seconds()` is the nanosecond count divided by 10⁹) — then
`frames` slots are allocated, each holding a fresh `gocv.NewMat()`.
A negative `frames` would make `make` panic in Go; `toNat` clamps, and all
theorems about construction restrict to the nonnegative case. -/
def newMatBuffer (duration : ℤ) (fps : ℚ) : MatBuffer :=
  mkBuffer (goTrunc (fps * ((duration : ℚ) / 1000000000))).toNat

namespace MatBuffer

/-- Model of `(*MatBuffer).Add(img, t)`: copy `img` into the slot at index
`writes % len(imgs)`, set that slot's timestamp, increment `writes`. -/
def add (b : MatBuffer) (img : Frame) (t : ℤ) : MatBuffer :=
  let i := b.writes % b.imgs.length
  { imgs := b.imgs.set i img
    times := b.times.set i t
    writes := b.writes + 1 }

/-- Fold `add` over a list of (frame, timestamp) insertions. -/
def addList (b : MatBuffer) (ps : List (Frame × ℤ)) : MatBuffer :=
  ps.foldl (fun b p => b.add p.1 p.2) b

/-- Model of `(*MatBuffer).TimeWindow()`: timestamps of the first and last
frames added; the zero `time.Time` is modelled as `0`. -/
def timeWindow (b : MatBuffer) : ℤ × ℤ :=
  if b.writes = 0 then (0, 0)
  else if b.writes ≤ b.imgs.length then
    (b.times.getD 0 0, b.times.getD (b.writes - 1) 0)
  else
    (b.times.getD (b.writes % b.imgs.length) 0,
     b.times.getD ((b.writes - 1 + b.imgs.length) % b.imgs.length) 0)

/-- Model of `(*MatBuffer).Duration()`: `newest.Sub(oldest)` in nanoseconds. -/
def duration (b : MatBuffer) : ℤ := (b.timeWindow).2 - (b.timeWindow).1

/-- Model of `(*MatBuffer).Count()`: `len(b.imgs)`, the fixed slot count. -/
def count (b : MatBuffer) : ℕ := b.imgs.length

/-- The divisor used by `FPS`: `b.Duration().Seconds()` (nanoseconds / 10⁹). -/
def fpsSeconds (b : MatBuffer) : ℚ := (b.duration : ℚ) / 1000000000

/-- Model of `(*MatBuffer).FPS()`:
0 when fewer than 2 writes; otherwise `writes/seconds` while
`writes < len(imgs)` and `len(imgs)/seconds` once at capacity. -/
def fps (b : MatBuffer) : ℚ :=
  if b.writes < 2 then 0
  else if b.writes < b.imgs.length then (b.writes : ℚ) / b.fpsSeconds
  else (b.imgs.length : ℚ) / b.fpsSeconds

/-- Model of `(*MatBuffer).Slice()`: the first `writes` slots while the
buffer has not wrapped, otherwise the rotation
`imgs[writes%len:] ++ imgs[:writes%len]`. -/
def slice (b : MatBuffer) : List Frame :=
  if b.writes ≤ b.imgs.length then b.imgs.take b.writes
  else
    let i := b.writes % b.imgs.length
    b.imgs.drop i ++ b.imgs.take i

end MatBuffer

/-- Errors surfaced by `WriteFile` (buffer.go wraps them in `fmt.Errorf`):
fewer than 2 frames, writer open failure, a frame with different dimensions,
or a rejected write. -/
inductive WErr where
  | insufficientFrames : WErr
  | writerOpenFailed : WErr
  | dimensionMismatch : WErr
  | writeFailed : WErr
deriving DecidableEq, Repr

/-- Observable outcome of `WriteFile`: whether the external video writer
was opened (attempted), the frames successfully written to it in order,
and the error returned, if any. -/
structure WriteOutcome where
  openAttempted : Bool
  written : List Frame
  err : Option WErr
deriving DecidableEq, Repr

/-- The frame loop of `WriteFile`: for each frame in order, first compare
its dimensions with the first frame's `width`/`height` (mismatch aborts
with `dimensionMismatch`), then write it (`writeOk` gives the external
writer's verdict; a rejected write aborts with `writeFailed`).  Returns
the frames written and the error, if any. -/
def writeLoop (writeOk : Frame → Bool) (width height : ℕ) :
    List Frame → List Frame × Option WErr
  | [] => ([], none)
  | img :: rest =>
    if img.cols ≠ width ∨ img.rows ≠ height then ([], some WErr.dimensionMismatch)
    else if writeOk img then
      let r := writeLoop writeOk width height rest
      (img :: r.1, r.2)
    else ([], some WErr.writeFailed)

namespace MatBuffer

/-- Model of `(*MatBuffer).WriteFile(filename, codec)`: take the slice;
fail with `insufficientFrames` when it holds fewer than 2 frames (before
the writer is even opened); otherwise read `width`/`height` from the
first frame, open the external writer (`openOk` gives its verdict), and
run the write loop.  `filename`/`codec` only parameterise the external
writer and are absorbed into `openOk`/`writeOk`. -/
def writeFile (openOk : Bool) (writeOk : Frame → Bool) (b : MatBuffer) :
    WriteOutcome :=
  let imgs := b.slice
  if imgs.length < 2 then
    { openAttempted := false, written := [], err := some WErr.insufficientFrames }
  else
    let width := (imgs.getD 0 newMat).cols
    let height := (imgs.getD 0 newMat).rows
    if openOk then
      let r := writeLoop writeOk width height imgs
      { openAttempted := true, written := r.1, err := r.2 }
    else
      { openAttempted := true, written := [], err := some WErr.writerOpenFailed }

end MatBuffer

/-- One iteration of the loop in `(*MatBuffer).Close()` over `(err, trace)`:
when no error has been recorded yet, the conditional `img.Close()` runs and
its result is recorded, and then the unconditional `img.Close()` runs as
well (the slot is closed twice); once an error is recorded, only the
unconditional close runs and its result is discarded.  `closeRes` gives
the (deterministic) result of closing a given slot and the trace lists
every close call performed. -/
def closeStep {ε : Type} (closeRes : Frame → Option ε)
    (acc : Option ε × List Frame) (img : Frame) : Option ε × List Frame :=
  match acc.1 with
  | none => (closeRes img, acc.2 ++ [img, img])
  | some e => (some e, acc.2 ++ [img])

namespace MatBuffer

/-- Model of `(*MatBuffer).Close()`: fold the loop body over all slots,
starting from no error and an empty trace; the first component is the
returned error, the second the trace of close calls. -/
def closeBuf {ε : Type} (closeRes : Frame → Option ε) (b : MatBuffer) :
    Option ε × List Frame :=
  b.imgs.foldl (closeStep closeRes) (none, [])

end MatBuffer

/-! ## Basic facts about `MatBuffer` -/

/-- The slice always holds `min writes capacity` frames: all writes before
the buffer fills, the fixed capacity afterwards. -/
theorem MatBuffer.slice_length (b : MatBuffer) :
    b.slice.length = min b.writes b.imgs.length := by
  rw [MatBuffer.slice]
  split
  · simp
  · rename_i h
    push_neg at h
    rcases Nat.eq_zero_or_pos b.imgs.length with h0 | hpos
    · simp [List.eq_nil_of_length_eq_zero h0, h0]
    · have hi : b.writes % b.imgs.length < b.imgs.length := Nat.mod_lt _ hpos
      simp only [List.length_append, List.length_drop, List.length_take]
      omega

/-! ## Claim C3 -/

/-- C3: the estimated rate `FPS()` is 0 whenever fewer than 2 frames were
ever added; otherwise it equals `min(writes, capacity)` divided by
`Duration()` in seconds — the numerator is the write count before the
buffer fills and the fixed capacity once it has filled. -/
theorem fps_eq_min_writes_capacity_div_duration (b : MatBuffer) :
    (b.writes < 2 → b.fps = 0) ∧
    (2 ≤ b.writes →
      b.fps = (min b.writes b.imgs.length : ℚ)
        / ((b.duration : ℚ) / 1000000000)) := by
  refine ⟨fun h => by simp [MatBuffer.fps, h], fun h => ?_⟩
  rw [MatBuffer.fps, if_neg (by omega)]
  unfold MatBuffer.fpsSeconds
  rcases lt_or_le b.writes b.imgs.length with hlt | hle
  · rw [if_pos hlt,
      min_eq_left (show (b.writes : ℚ) ≤ (b.imgs.length : ℚ) by
        exact_mod_cast le_of_lt hlt)]
  · rw [if_neg (not_lt.mpr hle),
      min_eq_right (show (b.imgs.length : ℚ) ≤ (b.writes : ℚ) by
        exact_mod_cast hle)]

/-- Witness for C3: a capacity-3 buffer after two adds one second apart. -/
theorem fps_eq_min_writes_capacity_div_duration_witness :
    2 ≤ ((mkBuffer 3).add newMat 0 |>.add newMat 1000000000).writes ∧
    ((mkBuffer 3).add newMat 0 |>.add newMat 1000000000).fps
      = (min ((mkBuffer 3).add newMat 0 |>.add newMat 1000000000).writes
            ((mkBuffer 3).add newMat 0 |>.add newMat 1000000000).imgs.length : ℚ)
        / ((((mkBuffer 3).add newMat 0 |>.add newMat 1000000000).duration : ℚ)
            / 1000000000) :=
  ⟨by decide, (fps_eq_min_writes_capacity_div_duration _).2 (by decide)⟩

/-! ## Claim C5 -/

/-- Capacity as the C5 spec sentence words it: `round(fps × retention
seconds)`.  This definition follows the spec's words, for comparison with
`newMatBuffer`, which follows the source. -/
def specRoundCapacity (duration : ℤ) (fps : ℚ) : ℤ :=
  round (fps * ((duration : ℚ) / 1000000000))

/-- C5 counterexample: for a 1-second retention at 1.9 expected fps the
code allocates `int(1.9) = 1` slot while `round(1.9) = 2`, so construction
does not round. -/
theorem newMatBuffer_capacity_not_round :
    (newMatBuffer 1000000000 (19/10)).imgs.length = 1 ∧
    specRoundCapacity 1000000000 (19/10) = 2 := by
  constructor
  · norm_num [newMatBuffer, mkBuffer, goTrunc, Int.floor_eq_iff]
  · norm_num [specRoundCapacity, round_eq, Int.floor_eq_iff]

/-- C5 (amended): construction allocates exactly `trunc(fps × retention
seconds)` slots — truncation toward zero, which is the floor whenever the
product is nonnegative — as the fixed capacity. -/
theorem newMatBuffer_capacity_floor (duration : ℤ) (fps : ℚ)
    (h : 0 ≤ fps * ((duration : ℚ) / 1000000000)) :
    ((newMatBuffer duration fps).imgs.length : ℤ)
      = ⌊fps * ((duration : ℚ) / 1000000000)⌋ := by
  rw [newMatBuffer, mkBuffer]
  simp only [List.length_replicate]
  rw [goTrunc, if_pos h, Int.toNat_of_nonneg (Int.floor_nonneg.mpr h)]

/-- Witness for C5 (amended): 2.5 fps over 2 seconds allocates ⌊5⌋ slots. -/
theorem newMatBuffer_capacity_floor_witness :
    0 ≤ (5/2 : ℚ) * (((2000000000 : ℤ) : ℚ) / 1000000000) ∧
    ((newMatBuffer 2000000000 (5/2)).imgs.length : ℤ)
      = ⌊(5/2 : ℚ) * (((2000000000 : ℤ) : ℚ) / 1000000000)⌋ :=
  ⟨by norm_num, newMatBuffer_capacity_floor 2000000000 (5/2) (by norm_num)⟩

/-! ## Claim C4 -/

/-- Setting slot `i` and then taking `i + 1` elements appends the new value
to the first `i` elements. -/
theorem take_set_succ {α : Type} (l : List α) (i : ℕ) (v : α) (h : i < l.length) :
    (l.set i v).take (i + 1) = l.take i ++ [v] := by
  rw [List.take_succ, List.set_take, List.set_eq_of_length_le (by simp),
    List.getElem?_set_self h]
  rfl

/-- Before the buffer is full, `Add` appends the new frame to the snapshot. -/
theorem MatBuffer.slice_add_of_lt (b : MatBuffer) (img : Frame) (t : ℤ)
    (h : b.writes < b.imgs.length) :
    (b.add img t).slice = b.slice ++ [img] := by
  have hmod : b.writes % b.imgs.length = b.writes := Nat.mod_eq_of_lt h
  simp only [MatBuffer.add, MatBuffer.slice, List.length_set]
  rw [if_pos (by omega), if_pos (le_of_lt h), hmod, take_set_succ _ _ _ h]

/-- Once at least `capacity` writes have happened, the snapshot is the
rotation of the slot array at `writes % capacity` (at exactly `capacity`
writes the rotation index is 0 and both branches of `Slice` agree). -/
theorem MatBuffer.slice_rotate (b : MatBuffer) (h : b.imgs.length ≤ b.writes) :
    b.slice = b.imgs.drop (b.writes % b.imgs.length)
      ++ b.imgs.take (b.writes % b.imgs.length) := by
  rw [MatBuffer.slice]
  rcases eq_or_lt_of_le h with heq | hlt
  · rw [if_pos (le_of_eq heq.symm), ← heq, Nat.mod_self]
    simp
  · rw [if_neg (by omega)]

/-- Once the buffer has wrapped, `Add` drops the oldest frame from the
snapshot and appends the new one. -/
theorem MatBuffer.slice_add_of_ge (b : MatBuffer) (img : Frame) (t : ℤ)
    (hpos : 0 < b.imgs.length) (h : b.imgs.length ≤ b.writes) :
    (b.add img t).slice = b.slice.drop 1 ++ [img] := by
  have hiC : b.writes % b.imgs.length < b.imgs.length := Nat.mod_lt _ hpos
  have hrot := MatBuffer.slice_rotate b h
  have hrot2 : (b.add img t).slice
      = (b.imgs.set (b.writes % b.imgs.length) img).drop ((b.writes + 1) % b.imgs.length)
        ++ (b.imgs.set (b.writes % b.imgs.length) img).take ((b.writes + 1) % b.imgs.length) := by
    have := MatBuffer.slice_rotate (b.add img t)
      (by simp only [MatBuffer.add, List.length_set]; omega)
    simpa only [MatBuffer.add, List.length_set] using this
  have hmod : (b.writes + 1) % b.imgs.length
      = (b.writes % b.imgs.length + 1) % b.imgs.length := by
    rw [Nat.mod_add_mod]
  rcases eq_or_lt_of_le (Nat.succ_le_of_lt hiC) with hfull | hlt2
  · -- the write lands in the last rotation slot: the new rotation index is 0
    have hfull2 : b.writes % b.imgs.length + 1 = b.imgs.length := by omega
    have h0 : (b.writes + 1) % b.imgs.length = 0 := by
      rw [hmod, hfull2, Nat.mod_self]
    have hset : b.imgs.set (b.writes % b.imgs.length) img
        = b.imgs.take (b.writes % b.imgs.length) ++ [img] := by
      have h1 : (b.imgs.set (b.writes % b.imgs.length) img).take
          (b.writes % b.imgs.length + 1)
          = b.imgs.take (b.writes % b.imgs.length) ++ [img] :=
        take_set_succ _ _ _ hiC
      rw [← h1]
      exact (List.take_of_length_le (by simp; omega)).symm
    have hdropnil : b.imgs.drop (b.writes % b.imgs.length + 1) = [] := by
      apply List.drop_eq_nil_of_le
      omega
    rw [hrot2, h0, hrot, List.drop_zero, List.take_zero, List.append_nil, hset,
      List.drop_append_of_le_length (by simp; omega), List.drop_drop, hdropnil,
      List.nil_append]
  · -- the new rotation index is the successor of the old one
    have h1 : (b.writes + 1) % b.imgs.length = b.writes % b.imgs.length + 1 := by
      rw [hmod, Nat.mod_eq_of_lt hlt2]
    rw [hrot2, h1, hrot, List.drop_set (l := b.imgs),
      if_pos (Nat.lt_succ_self _), take_set_succ _ _ _ hiC,
      List.drop_append_of_le_length (by simp; omega), List.drop_drop,
      List.append_assoc]

/-- `addList` increments `writes` once per insertion. -/
theorem MatBuffer.addList_writes (b : MatBuffer) (ps : List (Frame × ℤ)) :
    (b.addList ps).writes = b.writes + ps.length := by
  induction ps generalizing b with
  | nil => rfl
  | cons p ps ih =>
    show ((b.add p.1 p.2).addList ps).writes = _
    rw [ih]
    simp [MatBuffer.add]
    omega

/-- `addList` never changes the capacity. -/
theorem MatBuffer.addList_imgs_length (b : MatBuffer) (ps : List (Frame × ℤ)) :
    (b.addList ps).imgs.length = b.imgs.length := by
  induction ps generalizing b with
  | nil => rfl
  | cons p ps ih =>
    show ((b.add p.1 p.2).addList ps).imgs.length = _
    rw [ih]
    simp [MatBuffer.add]

/-- C4: inserting any sequence of frames into a fresh buffer of capacity
`c > 0`, the snapshot `Slice()` equals the last `min(writes, c)` inserted
frames in insertion (chronological) order: all of them while `writes ≤ c`,
and exactly the last `c` of them (FIFO eviction) once `writes = c + k`
with `k ≥ 1`. -/
theorem addList_slice_eq_drop (c : ℕ) (hc : 0 < c) (ps : List (Frame × ℤ)) :
    ((mkBuffer c).addList ps).slice = (ps.map Prod.fst).drop (ps.length - c) ∧
    ((mkBuffer c).addList ps).slice.length = min ps.length c := by
  have hlen : ∀ qs : List (Frame × ℤ), ((mkBuffer c).addList qs).imgs.length = c := by
    intro qs
    rw [MatBuffer.addList_imgs_length]
    simp [mkBuffer]
  have hw : ∀ qs : List (Frame × ℤ), ((mkBuffer c).addList qs).writes = qs.length := by
    intro qs
    rw [MatBuffer.addList_writes]
    simp [mkBuffer]
  have main : ∀ qs : List (Frame × ℤ),
      ((mkBuffer c).addList qs).slice = (qs.map Prod.fst).drop (qs.length - c) := by
    intro qs
    induction qs using List.reverseRecOn with
    | nil => simp [MatBuffer.addList, MatBuffer.slice, mkBuffer]
    | append_singleton qs p ih =>
      have hstep : (mkBuffer c).addList (qs ++ [p])
          = ((mkBuffer c).addList qs).add p.1 p.2 := by
        simp [MatBuffer.addList]
      rcases lt_or_le qs.length c with hlt | hge
      · rw [hstep,
          MatBuffer.slice_add_of_lt _ _ _ (by rw [hw, hlen]; exact hlt), ih]
        simp only [List.map_append, List.length_append]
        rw [Nat.sub_eq_zero_of_le (le_of_lt hlt), List.drop_zero,
          Nat.sub_eq_zero_of_le (by simp; omega), List.drop_zero]
        simp
      · rw [hstep,
          MatBuffer.slice_add_of_ge _ _ _ (by rw [hlen]; exact hc)
            (by rw [hw, hlen]; exact hge), ih]
        rw [List.drop_drop, List.map_append, List.length_append,
          List.drop_append_of_le_length (by simp; omega)]
        have : qs.length - c + 1 = qs.length + 1 - c := by omega
        simp [this]
  exact ⟨main ps, by rw [MatBuffer.slice_length, hw, hlen]⟩

/-- Witness for C4: capacity 2, three insertions — the snapshot is the last
two frames in insertion order. -/
theorem addList_slice_eq_drop_witness :
    0 < 2 ∧
    ((mkBuffer 2).addList [(⟨1, 1, 1⟩, 0), (⟨1, 1, 2⟩, 1), (⟨1, 1, 3⟩, 2)]).slice
      = (([(⟨1, 1, 1⟩, 0), (⟨1, 1, 2⟩, 1), (⟨1, 1, 3⟩, 2)] :
          List (Frame × ℤ)).map Prod.fst).drop
          (([(⟨1, 1, 1⟩, 0), (⟨1, 1, 2⟩, 1), (⟨1, 1, 3⟩, 2)] :
            List (Frame × ℤ)).length - 2) :=
  ⟨by decide,
    (addList_slice_eq_drop 2 (by decide)
      [(⟨1, 1, 1⟩, 0), (⟨1, 1, 2⟩, 1), (⟨1, 1, 3⟩, 2)]).1⟩

/-! ## Claim C6 -/

/-- C6: with fewer than 2 valid frames (`min(writes, capacity) < 2`),
`WriteFile` fails with the insufficient-frames error before the external
video writer is opened, and writes no frame. -/
theorem writeFile_insufficientFrames (b : MatBuffer) (openOk : Bool)
    (writeOk : Frame → Bool) (h : min b.writes b.imgs.length < 2) :
    b.writeFile openOk writeOk
      = { openAttempted := false, written := [],
          err := some WErr.insufficientFrames } := by
  have hl : b.slice.length < 2 := by rw [MatBuffer.slice_length]; exact h
  rw [MatBuffer.writeFile]
  simp [hl]

/-- Witness for C6: a capacity-3 buffer holding a single frame. -/
theorem writeFile_insufficientFrames_witness :
    min ((mkBuffer 3).add newMat 0).writes ((mkBuffer 3).add newMat 0).imgs.length < 2 ∧
    ((mkBuffer 3).add newMat 0).writeFile true (fun _ => true)
      = { openAttempted := false, written := [],
          err := some WErr.insufficientFrames } :=
  ⟨by decide, writeFile_insufficientFrames _ true (fun _ => true) (by decide)⟩

/-! ## Claim C7 -/

/-- If the target writer accepts every frame and the first dimension
mismatch against the target `width`/`height` is at position `j`, the write
loop writes exactly the first `j` frames and aborts with
`dimensionMismatch`. -/
theorem writeLoop_first_mismatch (writeOk : Frame → Bool)
    (hw : ∀ f, writeOk f = true) (width height : ℕ) :
    ∀ (l : List Frame) (j : ℕ), j < l.length →
      (∀ k, k < j → (l.getD k newMat).cols = width ∧ (l.getD k newMat).rows = height) →
      ¬ ((l.getD j newMat).cols = width ∧ (l.getD j newMat).rows = height) →
      writeLoop writeOk width height l = (l.take j, some WErr.dimensionMismatch) := by
  intro l
  induction l with
  | nil => intro j hj _ _; simp at hj
  | cons x rest ih =>
    intro j hj hpre hbad
    cases j with
    | zero =>
      simp only [List.getD_cons_zero] at hbad
      rw [writeLoop, if_pos (not_and_or.mp hbad), List.take_zero]
    | succ j =>
      have hx := hpre 0 (Nat.succ_pos j)
      simp only [List.getD_cons_zero] at hx
      have hnot : ¬ (x.cols ≠ width ∨ x.rows ≠ height) := by
        push_neg
        exact hx
      rw [writeLoop, if_neg hnot, if_pos (hw x),
        ih j (by simpa using hj)
          (fun k hk => by simpa using hpre (k + 1) (by omega))
          (by simpa using hbad)]
      simp

/-- C7: during `WriteFile`, frames are checked in chronological order
against the first frame's dimensions; at the first mismatch the export
aborts immediately with `dimensionMismatch`, having written exactly the
frames before it — the mismatched frame and all later frames are not
written (no skip-and-continue).  Stated on the nominal path where the
writer opens and accepts every write. -/
theorem writeFile_dimensionMismatch (b : MatBuffer) (writeOk : Frame → Bool)
    (hw : ∀ f, writeOk f = true) (j : ℕ)
    (hlen : 2 ≤ b.slice.length) (hj : j < b.slice.length)
    (hpre : ∀ k, k < j →
      (b.slice.getD k newMat).cols = (b.slice.getD 0 newMat).cols ∧
      (b.slice.getD k newMat).rows = (b.slice.getD 0 newMat).rows)
    (hbad : ¬ ((b.slice.getD j newMat).cols = (b.slice.getD 0 newMat).cols ∧
        (b.slice.getD j newMat).rows = (b.slice.getD 0 newMat).rows)) :
    b.writeFile true writeOk
      = { openAttempted := true, written := b.slice.take j,
          err := some WErr.dimensionMismatch } := by
  have hloop := writeLoop_first_mismatch writeOk hw
    (b.slice.getD 0 newMat).cols (b.slice.getD 0 newMat).rows b.slice j hj hpre hbad
  rw [MatBuffer.writeFile]
  simp only [if_neg (by omega : ¬ b.slice.length < 2), if_pos rfl, hloop]
  simp

/-- Witness for C7: capacity 3, frames of size 2×2, 2×2, then 3×2 — the
export writes the two matching frames and aborts on the third. -/
theorem writeFile_dimensionMismatch_witness :
    (∀ f : Frame, (fun _ : Frame => true) f = true) ∧
    2 ≤ ((mkBuffer 3).addList
      [(⟨2, 2, 0⟩, 0), (⟨2, 2, 1⟩, 1), (⟨3, 2, 2⟩, 2)]).slice.length ∧
    ((mkBuffer 3).addList
      [(⟨2, 2, 0⟩, 0), (⟨2, 2, 1⟩, 1), (⟨3, 2, 2⟩, 2)]).writeFile true (fun _ => true)
      = { openAttempted := true,
          written := ((mkBuffer 3).addList
            [(⟨2, 2, 0⟩, 0), (⟨2, 2, 1⟩, 1), (⟨3, 2, 2⟩, 2)]).slice.take 2,
          err := some WErr.dimensionMismatch } :=
  ⟨fun _ => rfl, by decide,
    writeFile_dimensionMismatch _ (fun _ => true) (fun _ => rfl) 2
      (by decide) (by decide) (by decide) (by decide)⟩

/-! ## Claim C8 -/

/-- Once an error has been recorded, the close loop keeps it and still
closes each remaining slot once. -/
theorem closeFold_some {ε : Type} (closeRes : Frame → Option ε) :
    ∀ (l : List Frame) (e : ε) (tr : List Frame),
      List.foldl (closeStep closeRes) (some e, tr) l = (some e, tr ++ l) := by
  intro l
  induction l with
  | nil => intro e tr; simp
  | cons x rest ih =>
    intro e tr
    rw [List.foldl_cons]
    show List.foldl _ (some e, tr ++ [x]) rest = _
    rw [ih]
    simp

/-- With no error recorded yet, the close loop returns the first error
among the slots' close results. -/
theorem closeFold_fst {ε : Type} (closeRes : Frame → Option ε) :
    ∀ (l : List Frame) (tr : List Frame),
      (List.foldl (closeStep closeRes) (none, tr) l).1
        = (l.filterMap closeRes).head? := by
  intro l
  induction l with
  | nil => intro tr; simp
  | cons x rest ih =>
    intro tr
    rw [List.foldl_cons]
    cases hx : closeRes x with
    | none =>
      show (List.foldl _ (closeRes x, tr ++ [x, x]) rest).1 = _
      rw [hx, ih]
      simp [List.filterMap_cons, hx]
    | some e =>
      show (List.foldl _ (closeRes x, tr ++ [x, x]) rest).1 = _
      rw [hx, closeFold_some]
      simp [List.filterMap_cons, hx]

/-- The close loop's trace contains every element of the start trace and
every slot it runs over: no slot's release is skipped. -/
theorem closeFold_trace_mem {ε : Type} (closeRes : Frame → Option ε) :
    ∀ (l : List Frame) (acc : Option ε × List Frame),
      (∀ y, y ∈ acc.2 → y ∈ (List.foldl (closeStep closeRes) acc l).2) ∧
      (∀ y, y ∈ l → y ∈ (List.foldl (closeStep closeRes) acc l).2) := by
  intro l
  induction l with
  | nil =>
    intro acc
    exact ⟨fun y hy => hy, fun y hy => absurd hy (List.not_mem_nil y)⟩
  | cons x rest ih =>
    intro acc
    rw [List.foldl_cons]
    have hsub : ∀ y, y ∈ acc.2 → y ∈ (closeStep closeRes acc x).2 := by
      intro y hy
      rcases acc with ⟨err, tr⟩
      cases err <;> simp only [closeStep] <;> exact List.mem_append_left _ hy
    have hx : x ∈ (closeStep closeRes acc x).2 := by
      rcases acc with ⟨err, tr⟩
      cases err <;> simp [closeStep]
    refine ⟨fun y hy => (ih _).1 y (hsub y hy), fun y hy => ?_⟩
    rcases List.mem_cons.mp hy with rfl | hy2
    · exact (ih _).1 y hx
    · exact (ih _).2 y hy2

/-- C8: `Close()` attempts to release every slot's image buffer (every slot
appears in the trace of close calls — the loop is not short-circuited by an
error) and returns the first release error encountered, or no error when
every release succeeds. -/
theorem closeBuf_first_error_and_releases_all {ε : Type}
    (closeRes : Frame → Option ε) (b : MatBuffer) :
    (b.closeBuf closeRes).1 = (b.imgs.filterMap closeRes).head? ∧
    ∀ img, img ∈ b.imgs → img ∈ (b.closeBuf closeRes).2 :=
  ⟨closeFold_fst closeRes b.imgs [],
    fun img h => (closeFold_trace_mem closeRes b.imgs _).2 img h⟩

/-! ## Claim C10 -/

/-- C10: the division in `FPS` is guarded only by the `writes < 2` check.
For every capacity-1 buffer with at least two writes, `TimeWindow` returns
equal endpoints, `Duration` is 0, the divisor `Duration().Seconds()` is 0,
and `FPS` computes `1 / 0` rather than returning 0 through a guard (in Go
float64 arithmetic `1/0.0` is `+Inf`; the exact-rational model records the
zero divisor being reached). -/
theorem fps_capacity_one_zero_divisor (b : MatBuffer)
    (h1 : b.imgs.length = 1) (h2 : 2 ≤ b.writes) :
    ¬ (b.writes < 2) ∧
    (b.timeWindow).1 = (b.timeWindow).2 ∧
    b.duration = 0 ∧
    b.fpsSeconds = 0 ∧
    b.fps = (1 : ℚ) / 0 := by
  have h0 : ¬ (b.writes = 0) := by omega
  have htw : b.timeWindow = (b.times.getD 0 0, b.times.getD 0 0) := by
    rw [MatBuffer.timeWindow, if_neg h0, if_neg (by omega), h1]
    simp [Nat.mod_one]
  have hdur : b.duration = 0 := by rw [MatBuffer.duration, htw]; ring
  have hsec : b.fpsSeconds = 0 := by rw [MatBuffer.fpsSeconds, hdur]; norm_num
  refine ⟨by omega, by rw [htw], hdur, hsec, ?_⟩
  rw [MatBuffer.fps, if_neg (by omega), if_neg (by omega), h1, hsec]
  norm_num

/-- Witness for C10: a capacity-1 buffer after two adds. -/
theorem fps_capacity_one_zero_divisor_witness :
    ((mkBuffer 1).add newMat 3 |>.add newMat 9).imgs.length = 1 ∧
    2 ≤ ((mkBuffer 1).add newMat 3 |>.add newMat 9).writes ∧
    ((mkBuffer 1).add newMat 3 |>.add newMat 9).fpsSeconds = 0 :=
  ⟨by decide, by decide,
    (fps_capacity_one_zero_divisor ((mkBuffer 1).add newMat 3 |>.add newMat 9)
      (by decide) (by decide)).2.2.2.1⟩

/-! ## FPSCounter -/

/-- Model of `FPSCounter` (buffer.go): `n` is the window length in seconds
(`len(c.frames)` and `len(c.durations)` are both `n`); the per-second
bucket arrays are modelled as functions read and written only at indices
`< n` (every access in the source is through `% len(...)`); `ticks` is the
current tick index, `totalFrames`/`totalDuration` the running totals over
non-evicted buckets, and `fps` the derived published rate. -/
structure FPSCounter where
  n : ℕ
  fps : ℚ
  ticks : ℕ
  frames : ℕ → ℤ
  durations : ℕ → ℤ
  totalFrames : ℤ
  totalDuration : ℤ

/-- Model of `NewFPSCounter(seconds)`: `seconds` zero buckets, all counters
zero, not started. -/
def newFPSCounter (seconds : ℕ) : FPSCounter :=
  { n := seconds
    fps := 0
    ticks := 0
    frames := fun _ => 0
    durations := fun _ => 0
    totalFrames := 0
    totalDuration := 0 }

/-- Model of `(*FPSCounter).NextFrame()`:
`c.frames[c.ticks % len(c.frames)]++`. -/
def nextFrame (c : FPSCounter) : FPSCounter :=
  let idx := c.ticks % c.n
  { c with frames := Function.update c.frames idx (c.frames idx + 1) }

/-- Model of the body of one tick of `runTicker` with measured tick
duration `d` (nanoseconds): store `d` into the current bucket's duration,
commit the current bucket into the running totals, advance the tick index,
evict the bucket at the new index (subtract its stored count and duration
from the totals and zero it), and republish
`FPS = totalFrames / totalDuration.Seconds()`. -/
def tick (d : ℤ) (c : FPSCounter) : FPSCounter :=
  let idx := c.ticks % c.n
  let durations1 := Function.update c.durations idx d
  let totalFrames1 := c.totalFrames + c.frames idx
  let totalDuration1 := c.totalDuration + durations1 idx
  let ticks1 := c.ticks + 1
  let idx2 := ticks1 % c.n
  let totalFrames2 := totalFrames1 - c.frames idx2
  let totalDuration2 := totalDuration1 - durations1 idx2
  { n := c.n
    fps := (totalFrames2 : ℚ) / ((totalDuration2 : ℚ) / 1000000000)
    ticks := ticks1
    frames := Function.update c.frames idx2 0
    durations := Function.update durations1 idx2 0
    totalFrames := totalFrames2
    totalDuration := totalDuration2 }

/-- Events delivered to the `select` inside `runTicker`: a value on the
`done` channel, or a ticker tick whose measured duration is `d`. -/
inductive TickerEvent where
  | done : TickerEvent
  | tickEv : ℤ → TickerEvent

/-- One iteration of the `for { select { ... } }` loop in `runTicker`.
In Go, `break` inside a `select` exits only the `select` statement, not
the enclosing `for`, so receiving on `done` leaves the state unchanged
and the loop keeps running; a ticker tick runs the tick body.  The
`c.ticker.Stop()` after the loop is unreachable. -/
def runTickerStep (c : FPSCounter) (e : TickerEvent) : FPSCounter :=
  match e with
  | TickerEvent.done => c
  | TickerEvent.tickEv d => tick d c

/-- The `runTicker` loop run over a finite prefix of its event schedule. -/
def runTickerRun (c : FPSCounter) (es : List TickerEvent) : FPSCounter :=
  es.foldl runTickerStep c

/-! ## Claim C1 -/

/-- C1 (refuting the claim on the code): `Stop()` sends on `done` and the
loop observes it, but Go's `break` only leaves the `select`, so the ticking
task does not terminate: a tick arriving after the stop signal was observed
still mutates the running totals (here `totalFrames` moves from 0 to 1 —
the frame signalled before the stop is committed by a post-`Stop` tick).
The claimed behaviour would leave the state untouched after `done`. -/
theorem ticker_mutates_after_stop_observed :
    (runTickerRun (nextFrame (newFPSCounter 5))
      [TickerEvent.done, TickerEvent.tickEv 1000000000]).totalFrames = 1 ∧
    (runTickerRun (nextFrame (newFPSCounter 5))
      [TickerEvent.done]).totalFrames = 0 ∧
    (runTickerRun (nextFrame (newFPSCounter 5))
      [TickerEvent.done, TickerEvent.tickEv 1000000000]).ticks = 1 := by
  refine ⟨?_, ?_, ?_⟩ <;> decide

/-! ## Claim C9 -/

/-- Atomic actions of the two concurrent actors sharing an `FPSCounter`:
the producer's `NextFrame` is the non-atomic read-modify-write
`c.frames[c.ticks % len(c.frames)]++`, split into its read
(of the index and the bucket value) and its write; the background task's
tick body is taken as one action. -/
inductive RCAction where
  | prodRead : RCAction
  | prodWrite : RCAction
  | tickAct : ℤ → RCAction

/-- Shared state plus the producer's local registers: `pending` holds the
index and bucket value read by `prodRead` and not yet written back. -/
structure RCSystem where
  ctr : FPSCounter
  pending : Option (ℕ × ℤ)

/-- Interleaving semantics: `prodRead` loads the current bucket index and
its count into the producer's registers, `prodWrite` stores the saved
count plus one back to the saved index, and `tickAct d` runs one tick of
the background task. -/
def rcStep (s : RCSystem) : RCAction → RCSystem
  | RCAction.prodRead =>
    let idx := s.ctr.ticks % s.ctr.n
    { s with pending := some (idx, s.ctr.frames idx) }
  | RCAction.prodWrite =>
    match s.pending with
    | none => s
    | some (i, v) =>
      { ctr := { s.ctr with frames := Function.update s.ctr.frames i (v + 1) }
        pending := none }
  | RCAction.tickAct d => { s with ctr := tick d s.ctr }

/-- A schedule of actions run from a start state. -/
def rcRun (s : RCSystem) (l : List RCAction) : RCSystem :=
  l.foldl rcStep s

/-- C9 (refuting the claim on the code): `NextFrame` races with the tick
rotation.  With window length 2 and a single frame signalled, the
interleaving read / tick / write / tick leaves `totalFrames = -1`: the
tick between the producer's read and write commits the bucket at its old
value and the stale write-back resurrects a count that the next eviction
subtracts without it ever being committed — the frame signal is lost and
the totals are corrupted.  Run serialized (read and write adjacent), the
same actions give `totalFrames = 0`: the frame is committed once and
evicted once, as the claim requires. -/
theorem nextFrame_race_loses_frame :
    (rcRun { ctr := newFPSCounter 2, pending := none }
      [RCAction.prodRead, RCAction.tickAct 1000000000, RCAction.prodWrite,
        RCAction.tickAct 1000000000]).ctr.totalFrames = -1 ∧
    (rcRun { ctr := newFPSCounter 2, pending := none }
      [RCAction.prodRead, RCAction.prodWrite, RCAction.tickAct 1000000000,
        RCAction.tickAct 1000000000]).ctr.totalFrames = 0 := by
  constructor <;> decide

/-! ## Claim C2 -/

/-- One modelled second of a running counter: `a` producer `NextFrame`
signals arrive (all of them into the bucket at the current tick index),
then the ticker fires with measured duration `d`. -/
def runSecond (c : FPSCounter) (a : ℕ) (d : ℤ) : FPSCounter :=
  tick d (nextFrame^[a] c)

/-- `m` modelled seconds of a counter with window length `N`: during
second `k` (0-based), `a k` frames are signalled and the ending tick `k`
measures duration `d k`. -/
def runSeconds (N : ℕ) (a : ℕ → ℕ) (d : ℕ → ℤ) : ℕ → FPSCounter
  | 0 => newFPSCounter N
  | m + 1 => runSecond (runSeconds N a d m) (a m) (d m)

/-- Iterating `NextFrame` `p` times adds `p` to the bucket at the current
tick index and changes nothing else. -/
theorem iterate_nextFrame (p : ℕ) : ∀ c : FPSCounter,
    nextFrame^[p] c
      = { c with
          frames :=
            Function.update c.frames (c.ticks % c.n)
              (c.frames (c.ticks % c.n) + (p : ℤ)) } := by
  induction p with
  | zero =>
    intro c
    simp [Function.update_eq_self]
  | succ p ih =>
    intro c
    rw [Function.iterate_succ_apply, ih (nextFrame c)]
    simp only [nextFrame]
    rw [Function.update_same, Function.update_idem]
    congr 2
    push_cast
    ring_nf

/-- Two distinct residues modulo `N` obtained by stepping back `i < N`
positions are different indices. -/
theorem sub_mod_ne (N : ℕ) (x i : ℕ) (h1 : 1 ≤ i) (hiN : i < N) (hix : i ≤ x) :
    (x - i) % N ≠ x % N := by
  intro h
  have hmeq : Nat.ModEq N (x - i) x := h
  have hdvd : N ∣ x - (x - i) := (Nat.modEq_iff_dvd' (by omega)).mp hmeq
  have hxi : x - (x - i) = i := by omega
  rw [hxi] at hdvd
  have := Nat.le_of_dvd (by omega) hdvd
  omega

/-- Invariant of one bucket array after `m` ticks, for per-second values
`v` (the frame arrivals cast to `ℤ`, or the measured durations): the most
recently committed buckets still hold their second's value, the bucket at
the current tick index has just been zeroed, and buckets not yet reached
are still zero. -/
def bucketInv (N : ℕ) (v : ℕ → ℤ) (m : ℕ) (f : ℕ → ℤ) : Prop :=
  (∀ i, 1 ≤ i → i < N → i ≤ m → f ((m - i) % N) = v (m - i)) ∧
  f (m % N) = 0 ∧
  (∀ j, m < j → j < N → f j = 0)

/-- Under the bucket invariant, the value the tick body reads at the next
tick index (the bucket about to be evicted) is the value committed `N - 1`
ticks earlier, or 0 while the window has not yet wrapped. -/
theorem bucketInv_read_evict (N : ℕ) (hN : 2 ≤ N) (v : ℕ → ℤ) (m : ℕ)
    (f : ℕ → ℤ) (h : bucketInv N v m f) :
    f ((m + 1) % N) = if m + 1 < N then 0 else v (m + 1 - N) := by
  obtain ⟨hlive, hcur, hfresh⟩ := h
  by_cases hm : m + 1 < N
  · rw [if_pos hm, Nat.mod_eq_of_lt hm]
    exact hfresh (m + 1) (Nat.lt_succ_self m) hm
  · rw [if_neg hm]
    push_neg at hm
    have hplus : m - (N - 1) + N = m + 1 := by omega
    have hidx : (m + 1) % N = (m - (N - 1)) % N := by
      rw [← hplus, Nat.add_mod_right]
    have hval := hlive (N - 1) (by omega) (by omega) (by omega)
    rw [hidx, hval]
    congr 1
    omega

/-- The tick body's update pattern — write the committed value at the old
tick index, zero the bucket at the new tick index — preserves the bucket
invariant, advancing it by one tick. -/
theorem bucketInv_step (N : ℕ) (hN : 2 ≤ N) (v : ℕ → ℤ) (m : ℕ)
    (f : ℕ → ℤ) (h : bucketInv N v m f) :
    bucketInv N v (m + 1)
      (Function.update (Function.update f (m % N) (v m)) ((m + 1) % N) 0) := by
  obtain ⟨hlive, hcur, hfresh⟩ := h
  have hne : (m + 1) % N ≠ m % N := by
    have := sub_mod_ne N (m + 1) 1 (le_refl 1) (by omega) (by omega)
    simpa using this.symm
  refine ⟨?_, ?_, ?_⟩
  · intro i h1 hiN him
    by_cases hi1 : i = 1
    · subst hi1
      have hidx : m + 1 - 1 = m := by omega
      rw [hidx, Function.update_noteq hne.symm, Function.update_same]
    · have hi2 : 2 ≤ i := by omega
      have hne2 : (m + 1 - i) % N ≠ (m + 1) % N :=
        sub_mod_ne N (m + 1) i h1 hiN him
      have hne3 : (m + 1 - i) % N ≠ m % N := by
        have := sub_mod_ne N m (i - 1) (by omega) (by omega) (by omega)
        have harg : m - (i - 1) = m + 1 - i := by omega
        rw [harg] at this
        exact this
      rw [Function.update_noteq hne2, Function.update_noteq hne3]
      have hv := hlive (i - 1) (by omega) (by omega) (by omega)
      have harg2 : m - (i - 1) = m + 1 - i := by omega
      rw [harg2] at hv
      exact hv
  · rw [Function.update_same]
  · intro j hj hjN
    have hne4 : j ≠ (m + 1) % N := by
      rw [Nat.mod_eq_of_lt (by omega : m + 1 < N)]
      omega
    have hne5 : j ≠ m % N := by
      rw [Nat.mod_eq_of_lt (by omega : m < N)]
      omega
    rw [Function.update_noteq hne4, Function.update_noteq hne5]
    exact hfresh j (by omega) hjN

/-- One tick's effect on a rolling window sum: add the newly committed
term, subtract the evicted one (zero while the window has not wrapped). -/
theorem window_sum_step (N m : ℕ) (hN : 2 ≤ N) (g : ℕ → ℤ) :
    (∑ k in Finset.Ico (m + 1 - N) m, g k) + g m
      - (if m + 1 < N then 0 else g (m + 1 - N))
      = ∑ k in Finset.Ico (m + 1 + 1 - N) (m + 1), g k := by
  by_cases hm : m + 1 < N
  · rw [if_pos hm]
    have h1 : m + 1 - N = 0 := by omega
    have h2 : m + 1 + 1 - N = 0 := by omega
    rw [h1, h2, Finset.sum_Ico_succ_top (Nat.zero_le m)]
    ring
  · rw [if_neg hm]
    push_neg at hm
    have h1 : m + 1 - N < m := by omega
    have h2 : m + 1 + 1 - N = m + 1 - N + 1 := by omega
    rw [Finset.sum_eq_sum_Ico_succ_bot h1 g, h2,
      Finset.sum_Ico_succ_top (by omega : m + 1 - N + 1 ≤ m)]
    ring

/-- Full invariant of the counter after `m` modelled seconds: the tick
index is `m`, both bucket arrays satisfy the bucket invariant, and the
running totals are the sums of the arrivals and durations of the last
`min m (N - 1)` committed seconds. -/
def counterInv (N : ℕ) (a : ℕ → ℕ) (d : ℕ → ℤ) (m : ℕ) (c : FPSCounter) : Prop :=
  c.n = N ∧ c.ticks = m ∧
  bucketInv N (fun k => (a k : ℤ)) m c.frames ∧
  bucketInv N d m c.durations ∧
  c.totalFrames = ∑ k in Finset.Ico (m + 1 - N) m, (a k : ℤ) ∧
  c.totalDuration = ∑ k in Finset.Ico (m + 1 - N) m, d k

/-- Evaluation of the tick body on an explicit state: the only
non-definitional step is that the duration bucket just written is read
back when committing (`durations1 idx`, which is `d`). -/
theorem tick_mk (d : ℤ) (n0 : ℕ) (f0 : ℚ) (t0 : ℕ) (fr du : ℕ → ℤ) (tf td : ℤ) :
    tick d ⟨n0, f0, t0, fr, du, tf, td⟩
      = ⟨n0,
         ((tf + fr (t0 % n0) - fr ((t0 + 1) % n0) : ℤ) : ℚ)
           / (((td + d
                - Function.update du (t0 % n0) d ((t0 + 1) % n0) : ℤ) : ℚ)
              / 1000000000),
         t0 + 1,
         Function.update fr ((t0 + 1) % n0) 0,
         Function.update (Function.update du (t0 % n0) d) ((t0 + 1) % n0) 0,
         tf + fr (t0 % n0) - fr ((t0 + 1) % n0),
         td + d - Function.update du (t0 % n0) d ((t0 + 1) % n0)⟩ := by
  simp only [tick, Function.update_same]

/-- One modelled second preserves the counter invariant. -/
theorem counterInv_step (N : ℕ) (hN : 2 ≤ N) (a : ℕ → ℕ) (d : ℕ → ℤ) (m : ℕ)
    (c : FPSCounter) (h : counterInv N a d m c) :
    counterInv N a d (m + 1) (runSecond c (a m) (d m)) := by
  obtain ⟨hn, hticks, hF, hD, hTF, hTD⟩ := h
  have hF0 := hF.2.1
  have hne : (m + 1) % N ≠ m % N := by
    have := sub_mod_ne N (m + 1) 1 (le_refl 1) (by omega) (by omega)
    simpa using this.symm
  have hc1 : nextFrame^[a m] c
      = ⟨N, c.fps, m, Function.update c.frames (m % N) ((a m : ℤ)),
          c.durations, c.totalFrames, c.totalDuration⟩ := by
    rw [iterate_nextFrame (a m) c, hticks, hn, hF0, zero_add]
  rw [runSecond, hc1, tick_mk]
  refine ⟨rfl, rfl, ?_, ?_, ?_, ?_⟩
  · -- frame buckets
    show bucketInv N _ (m + 1)
      (Function.update
        (Function.update c.frames (m % N) ((a m : ℤ))) ((m + 1) % N) 0)
    exact bucketInv_step N hN _ m c.frames hF
  · -- duration buckets
    show bucketInv N d (m + 1)
      (Function.update
        (Function.update c.durations (m % N) (d m)) ((m + 1) % N) 0)
    exact bucketInv_step N hN d m c.durations hD
  · -- totalFrames
    show c.totalFrames
        + Function.update c.frames (m % N) ((a m : ℤ)) (m % N)
        - Function.update c.frames (m % N) ((a m : ℤ)) ((m + 1) % N)
      = ∑ k in Finset.Ico (m + 1 + 1 - N) (m + 1), ((a k : ℤ))
    rw [Function.update_same, Function.update_noteq hne,
      bucketInv_read_evict N hN _ m c.frames hF, hTF]
    exact window_sum_step N m hN _
  · -- totalDuration
    show c.totalDuration + d m
        - Function.update c.durations (m % N) (d m) ((m + 1) % N)
      = ∑ k in Finset.Ico (m + 1 + 1 - N) (m + 1), d k
    rw [Function.update_noteq hne,
      bucketInv_read_evict N hN d m c.durations hD, hTD]
    exact window_sum_step N m hN d

/-- The counter invariant holds after every number of modelled seconds. -/
theorem runSeconds_inv (N : ℕ) (hN : 2 ≤ N) (a : ℕ → ℕ) (d : ℕ → ℤ) :
    ∀ m, counterInv N a d m (runSeconds N a d m) := by
  intro m
  induction m with
  | zero =>
    refine ⟨rfl, rfl,
      ⟨fun i h1 _ him => by omega, rfl, fun j _ _ => rfl⟩,
      ⟨fun i h1 _ him => by omega, rfl, fun j _ _ => rfl⟩, ?_, ?_⟩ <;>
      rw [Finset.Ico_eq_empty (by omega), Finset.sum_empty] <;> rfl
  | succ m ih => exact counterInv_step N hN a d m _ ih

/-- C2 (amended): with window length `N ≥ 2`, a bucket's frame count and
duration that are committed into the running totals (`totalFrames`,
`totalDuration`) at tick `t` are subtracted from them at tick
`t + N - 1` — exactly `N - 1` ticks (window length minus one seconds)
later, not `N`.  Running the counter with `v` frames arriving during
second `t` and none otherwise, and the tick ending second `t` measuring
duration `dur` while all other ticks measure 0, the running totals hold
`v` and `dur` exactly after ticks `t+1 .. t+N-1` and are 0 again from
`m = t + N` ticks on (both subtractions happened during tick
`t + N - 1`). -/
theorem commit_subtracted_after_pred_window (N t v m : ℕ) (dur : ℤ)
    (hN : 2 ≤ N) :
    (runSeconds N (fun k => if k = t then v else 0)
        (fun k => if k = t then dur else 0) m).totalFrames
      = (if t + 1 ≤ m ∧ m ≤ t + N - 1 then (v : ℤ) else 0) ∧
    (runSeconds N (fun k => if k = t then v else 0)
        (fun k => if k = t then dur else 0) m).totalDuration
      = (if t + 1 ≤ m ∧ m ≤ t + N - 1 then dur else 0) := by
  have h := runSeconds_inv N hN (fun k => if k = t then v else 0)
    (fun k => if k = t then dur else 0) m
  have hTF := h.2.2.2.2.1
  have hTD := h.2.2.2.2.2
  rw [hTF, hTD]
  simp only [apply_ite (fun x : ℕ => (x : ℤ)), Nat.cast_zero]
  rw [Finset.sum_ite_eq' (Finset.Ico (m + 1 - N) m) t (fun _ => (v : ℤ)),
    Finset.sum_ite_eq' (Finset.Ico (m + 1 - N) m) t (fun _ => dur)]
  by_cases hc : t + 1 ≤ m ∧ m ≤ t + N - 1
  · have hmem : t ∈ Finset.Ico (m + 1 - N) m := Finset.mem_Ico.mpr (by omega)
    rw [if_pos hmem, if_pos hmem, if_pos hc, if_pos hc]
    exact ⟨rfl, rfl⟩
  · have hnmem : t ∉ Finset.Ico (m + 1 - N) m := fun hmem => hc (by
      have := Finset.mem_Ico.mp hmem
      omega)
    rw [if_neg hnmem, if_neg hnmem, if_neg hc, if_neg hc]
    exact ⟨rfl, rfl⟩

/-- Witness for C2 (amended): window 3, 7 frames during second 1, whose
ending tick measures 10⁹ ns — after 3 ticks the running totals still hold
the 7 frames and the 10⁹ ns (both are evicted at tick 3, i.e. 2 = N−1
ticks after the commit at tick 1). -/
theorem commit_subtracted_after_pred_window_witness :
    (2 : ℕ) ≤ 3 ∧
    ((runSeconds 3 (fun k => if k = 1 then 7 else 0)
        (fun k => if k = 1 then 1000000000 else 0) 3).totalFrames
      = (if 1 + 1 ≤ 3 ∧ 3 ≤ 1 + 3 - 1 then (7 : ℤ) else 0) ∧
    (runSeconds 3 (fun k => if k = 1 then 7 else 0)
        (fun k => if k = 1 then 1000000000 else 0) 3).totalDuration
      = (if 1 + 1 ≤ 3 ∧ 3 ≤ 1 + 3 - 1 then (1000000000 : ℤ) else 0)) :=
  ⟨by decide,
    commit_subtracted_after_pred_window 3 1 7 3 1000000000 (by decide)⟩

/-- C2 counterexample: window length `N = 2`; 5 frames arrive before the
first tick, which measures 10⁹ ns, and both are committed into the
running totals at tick 0.  The claim as stated predicts they are
subtracted `N = 2` ticks later, i.e. that `totalFrames` is still 5 and
`totalDuration` still 10⁹ after 2 ticks; in fact the eviction happens at
tick 1 (`N − 1` ticks after the commit), so both totals are already 0
after 2 ticks (while they are 5 and 10⁹ after 1 tick). -/
theorem commit_subtracted_two_ticks_counterexample :
    ((runSeconds 2 (fun k => if k = 0 then 5 else 0)
        (fun k => if k = 0 then 1000000000 else 0) 1).totalFrames = 5 ∧
      (runSeconds 2 (fun k => if k = 0 then 5 else 0)
        (fun k => if k = 0 then 1000000000 else 0) 1).totalDuration
          = 1000000000) ∧
    ((runSeconds 2 (fun k => if k = 0 then 5 else 0)
        (fun k => if k = 0 then 1000000000 else 0) 2).totalFrames = 0 ∧
      (runSeconds 2 (fun k => if k = 0 then 5 else 0)
        (fun k => if k = 0 then 1000000000 else 0) 2).totalDuration = 0) := by
  refine ⟨⟨?_, ?_⟩, ?_, ?_⟩ <;> decide

end MotionDetect
